import Mathlib

/-!
Verification development for the simple-web-gallery server.

The repository is a set of near-duplicate Express applications (src/app.js and
the unnamed variants part_000, part_001, part_002).  This file gives a shallow
embedding of the logic the claims are about:

* the IP-based access policy (`ipRestrict`) and the gated / ungated routes,
* the folder-management handlers (`/create-folder`, `/delete-folder`) and the
  `path.join` normalisation they rely on,
* the media catalog builders (`listMedia` of app.js and `listAllMedia` of
  part_000) with the extension allow-list filter, percent-encoding of urls and
  the date-descending sort,
* the `/local/:filename` streaming route with its `Range` header parsing.

JavaScript runtime primitives are modelled byte- or character-faithfully where
the claims depend on them: `Number(...)` on the strings produced by range
parsing, `String.prototype.split`, `encodeURIComponent` / `decodeURIComponent`
at the byte level, Node `path.extname` / `path.join`, the synchronous argument
validation of `fs.createReadStream`, and the binary insertion sort V8 uses for
`Array.prototype.sort` on short arrays.
-/

namespace Gallery

/-! ## Access policy (ipRestrict)

`function ipRestrict(req, res, next) { if (req.ip === ALLOWED_IP) next(); else
res.status(403)... }` — JavaScript `===` on the resolved client address and the
configured address.  An absent value is `undefined`; `undefined === undefined`
is `true`, which `Option.beq` with `none == none` models exactly. -/

def ipAllowed (clientIp allowedIp : Option String) : Bool :=
  clientIp == allowedIp

/-- State of the local media directory: uploaded file names plus the set of
directories that exist (path ↦ contained file names). -/
structure FsState where
  files : List String
  dirs : List (String × List String)
deriving DecidableEq, Repr

def dirNames (st : FsState) : List String := st.dirs.map Prod.fst

def addDir (p : String) (st : FsState) : FsState :=
  { st with dirs := (p, []) :: st.dirs }

def removeDir (p : String) (st : FsState) : FsState :=
  { st with dirs := st.dirs.filter (fun d => d.fst ≠ p) }

def storeUpload (f : String) (st : FsState) : FsState :=
  { st with files := f :: st.files }

/-- app.js line 290: `app.post('/upload', ipRestrict, upload.single('video'), …)`.
The gate runs before multer, so a denied caller gets 403 before any file is
stored; with the gate passed, multer stores the file and the handler answers
400 (no file) or 200. -/
def uploadGated (clientIp allowedIp : Option String) (file : Option String)
    (st : FsState) : Nat × FsState :=
  if ipAllowed clientIp allowedIp then
    match file with
    | none => (400, st)
    | some f => (200, storeUpload f st)
  else (403, st)

/-- part_002 first variant, line 313: `app.post('/upload', upload.single('file'),
(req, res) => { res.send('File uploaded successfully.'); })` — no `ipRestrict`
in the chain, so multer stores the file and the handler answers 200 for every
caller; the client address is never consulted. -/
def uploadUngatedP2 (_clientIp _allowedIp : Option String) (file : Option String)
    (st : FsState) : Nat × FsState :=
  match file with
  | none => (200, st)
  | some f => (200, storeUpload f st)

/-! ## path.join -/

/-- JavaScript `String.prototype.split` on a single separator character, with the same
contract as JavaScript: the result is never empty and keeps empty pieces
(`"5-".split("-")` is `["5", ""]`). -/
def splitOnChar (d : Char) : List Char → List (List Char)
  | [] => [[]]
  | c :: cs =>
    match splitOnChar d cs with
    | [] => [[c]]
    | h :: t => if c = d then [] :: h :: t else (c :: h) :: t

/-- Split a string into its `/`-separated segments. -/
def splitSlash (s : String) : List String :=
  (splitOnChar '/' s.data).map (fun l => ⟨l⟩)

/-- Segment normalisation of Node `path.normalize` for relative paths: empty
and `.` segments are dropped, `..` pops the previous segment and is kept when
nothing can be popped. -/
def normStack : List String → List String → List String
  | stk, [] => stk.reverse
  | stk, seg :: rest =>
    if seg = "" ∨ seg = "." then normStack stk rest
    else if seg = ".." then
      match stk with
      | [] => normStack [".."] rest
      | top :: stk' =>
        if top = ".." then normStack (".." :: top :: stk') rest
        else normStack stk' rest
    else normStack (seg :: stk) rest

/-- Concatenate segments with `/` between them. -/
def joinSegs : List String → String
  | [] => ""
  | [s] => s
  | s :: rest => s ++ "/" ++ joinSegs rest

/-- Node `path.join(a, b)` for relative arguments: concatenate with `/` and
normalise. -/
def pathJoin (a b : String) : String :=
  let segs := splitSlash a ++ splitSlash b
  let n := normStack [] segs
  if n = [] then "." else joinSegs n

/-- Whether a normalised path is inside the directory `root` (equal to it or a
descendant); the folder handlers never check this. -/
def underRoot (root p : String) : Bool :=
  (splitSlash p).headD "" == root

/-! ## Folder handlers

app.js lines 298-320 checks `folderName`, then `fs.existsSync` (→ 400), then
`fs.mkdir`.  part_001 lines 287-302 joins first, checks only non-emptiness and
calls `fs.mkdir` directly, mapping every callback error — including `EEXIST` —
to 500.  part_001 lines 305-320 is the recursive `fs.rmdir` delete route. -/

/-- Callback semantics of plain `fs.mkdir`: `EEXIST` (or any error) reaches the
route callback and is answered with 500; success answers 200.  (The parent
directory is assumed to exist; the claims only exercise that situation.) -/
def mkdirCb (p : String) (st : FsState) : Nat × FsState :=
  if p ∈ dirNames st then (500, st) else (200, addDir p st)

/-- Callback semantics of `fs.rmdir(p, { recursive: true })`: removes the tree
when present and reports success (recursive removal ignores a missing path). -/
def rmdirRecCb (p : String) (st : FsState) : Nat × FsState :=
  (200, removeDir p st)

def localMediaRoot : String := "local_media/"
def localVideoRoot : String := "local_videos/"

/-- app.js `/create-folder` handler body (after the gate): missing or empty
name → 400; existing target → 400 with no write; otherwise mkdir. -/
def createFolderAppJs (folderName : Option String) (st : FsState) : Nat × FsState :=
  match folderName with
  | none => (400, st)
  | some fn =>
    if fn = "" then (400, st)
    else
      let p := pathJoin localMediaRoot fn
      if p ∈ dirNames st then (400, st)
      else (200, addDir p st)

/-- part_001 `/create-folder` handler body (after the gate).  The code joins
before the falsiness check, so a missing field makes `path.join(dir, undefined)`
throw a TypeError which Express answers with 500; an empty string fails the
falsiness check (400); any other name goes straight to `fs.mkdir`. -/
def createFolderP1 (folderName : Option String) (st : FsState) : Nat × FsState :=
  match folderName with
  | none => (500, st)
  | some fn =>
    if fn = "" then (400, st)
    else mkdirCb (pathJoin localVideoRoot fn) st

/-- part_001 `/delete-folder` handler body (after the gate). -/
def deleteFolderP1 (folderName : Option String) (st : FsState) : Nat × FsState :=
  match folderName with
  | none => (500, st)
  | some fn =>
    if fn = "" then (400, st)
    else rmdirRecCb (pathJoin localVideoRoot fn) st

/-- A concrete directory state holding both variants' target folders, used by
witnesses. -/
def sampleFolderState : FsState :=
  ⟨[], [("local_media/pics", ["a.png"]), ("local_videos/pics", ["b.png"])]⟩

/-! ## The `/local/:filename` streaming route

part_001 lines 214-249 (identically part_002 lines 614-649):

    const [start, end] = range.replace(/bytes=/, "").split("-").map(Number);
    const chunkSize = (end - start) + 1;
    const fileStream = fs.createReadStream(filePath, { start, end });
    res.writeHead(206, { "Content-Range": `bytes S-E/T`, ... });

There is no 416 path and no clamping; `fs.createReadStream` validates its
options synchronously (NaN, negative or `start > end` throw `ERR_OUT_OF_RANGE`
before `writeHead` runs, so no response is produced at all in those cases). -/

/-- JavaScript `Number(str)` restricted to the strings this route can feed it:
the empty string converts to `0`, a non-empty all-digit string to its decimal
value, anything else to NaN (`none`).  (Signs, whitespace, decimals and hex
literals never occur in a `bytes=`-stripped range part made of digits.) -/
def jsNumberL (l : List Char) : Option Int :=
  (l.foldl
    (fun acc c =>
      match acc with
      | none => none
      | some n => if 48 ≤ c.toNat ∧ c.toNat ≤ 57 then some (10 * n + (c.toNat - 48)) else none)
    (some 0)).map Int.ofNat

/-- Boolean string-prefix test over character lists. -/
def strPfx : List Char → List Char → Bool
  | [], _ => true
  | _ :: _, [] => false
  | a :: as, b :: bs => a == b && strPfx as bs

/-- JavaScript `String.prototype.replace` with a non-global literal pattern: remove the
first occurrence of `pat`. -/
def replFirst (pat : List Char) : List Char → List Char
  | [] => []
  | c :: cs =>
    if strPfx pat (c :: cs) then (c :: cs).drop pat.length
    else c :: replFirst pat cs

/-- The `[start, end]` destructuring of a mapped split: the first component is
`Number` of the first piece, the second is `undefined` (outer `none`) when the
split produced a single piece, otherwise `Number` of the second piece (inner
`none` = NaN). -/
def parsePair (parts : List (List Char)) : Option Int × Option (Option Int) :=
  (jsNumberL (parts.headD []), (parts.get? 1).map jsNumberL)

/-- The pipeline `range.replace(/bytes=/, "").split("-").map(Number)` destructured as
`[start, end]`. -/
def parseRange (r : List Char) : Option Int × Option (Option Int) :=
  parsePair (splitOnChar '-' (replFirst ("bytes=").data r))

def jsIntStr (i : Int) : List Char := (toString i).data

/-- The `Content-Range` template string `bytes <start>-<end>/<total>`. -/
def contentRangeStr (startStr endStr : List Char) (size : Nat) : List Char :=
  ("bytes ").data ++ startStr ++ ('-' :: endStr) ++ ('/' :: (toString size).data)

/-- Outcome of one request to the route: 404 when `fs.stat` fails, a thrown
synchronous exception (no response at all), a `writeHead(206, …)` answer, or a
`writeHead(200, …)` full-content answer. -/
inductive LocalOutcome where
  | missing : LocalOutcome
  | thrown : LocalOutcome
  | ranged : Nat → List Char → Option Int → List Nat → LocalOutcome
  | whole : Nat → Nat → List Nat → LocalOutcome
deriving DecidableEq, Repr

def statusOf : LocalOutcome → Option Nat
  | .missing => some 404
  | .thrown => none
  | .ranged s _ _ _ => some s
  | .whole s _ _ => some s

/-- The expression `chunkSize = (end - start) + 1` under JavaScript arithmetic: NaN (or the
subtraction against `undefined`) propagates to NaN (`none`). -/
def chunkSize (pr : Option Int × Option (Option Int)) : Option Int :=
  match pr.1, pr.2 with
  | some s, some (some e) => some (e - s + 1)
  | _, _ => none

/-- The ranged branch of the route applied to the parsed `[start, end]` pair:
`fs.createReadStream` throws synchronously for a NaN or negative bound and for
`start > end` — before `writeHead(206, …)` runs — otherwise the inclusive byte
span is streamed (a start at or past EOF streams nothing, an end past EOF
streams up to EOF; an `undefined` end means "to EOF"). -/
def rangedBranch (bytes : List Nat) (pr : Option Int × Option (Option Int)) :
    LocalOutcome :=
  match pr.1 with
  | none => .thrown
  | some s =>
    if s < 0 then .thrown
    else
      match pr.2 with
      | some none => .thrown
      | some (some e) =>
        if s ≤ e then
          .ranged 206 (contentRangeStr (jsIntStr s) (jsIntStr e) bytes.length)
            (chunkSize pr) ((bytes.drop s.toNat).take (e - s + 1).toNat)
        else .thrown
      | none =>
        .ranged 206 (contentRangeStr (jsIntStr s) (("undefined").data) bytes.length)
          (chunkSize pr) (bytes.drop s.toNat)

/-- The `/local/:filename` handler: `file` is the stat/read view of the target
(`none` when `fs.stat` errors), `rangeHdr` the raw `Range` header. -/
def localStream (file : Option (List Nat)) (rangeHdr : Option (List Char)) :
    LocalOutcome :=
  match file, rangeHdr with
  | none, _ => .missing
  | some bytes, none => .whole 200 bytes.length bytes
  | some bytes, some r => rangedBranch bytes (parseRange r)

/-! ## Byte strings and percent-encoding

Filenames and urls are modelled as byte strings (`List Nat`, each byte < 256),
which is the level at which `encodeURIComponent` / `decodeURIComponent`
operate (a JS string is first UTF-8 encoded; this embedding works directly on
the resulting bytes). -/

/-- The characters `encodeURIComponent` leaves unescaped:
`A-Z a-z 0-9 - _ . ! ~ * ' ( )`. -/
def uriUnreserved (b : Nat) : Bool :=
  (65 ≤ b && b ≤ 90) || (97 ≤ b && b ≤ 122) || (48 ≤ b && b ≤ 57) ||
  b == 45 || b == 95 || b == 46 || b == 33 || b == 126 || b == 42 ||
  b == 39 || b == 40 || b == 41

/-- Upper-case hexadecimal digit, as `encodeURIComponent` emits. -/
def hexDigit (n : Nat) : Nat := if n < 10 then 48 + n else 55 + n

/-- One byte of `encodeURIComponent` output: kept verbatim when unreserved,
otherwise `%XX`. -/
def encByte (b : Nat) : List Nat :=
  if uriUnreserved b then [b] else [37, hexDigit (b / 16 % 16), hexDigit (b % 16)]

def uriEncode : List Nat → List Nat
  | [] => []
  | b :: bs => encByte b ++ uriEncode bs

/-- Value of one hexadecimal digit character (`decodeURIComponent` accepts both
cases). -/
def hexVal (c : Nat) : Option Nat :=
  if 48 ≤ c ∧ c ≤ 57 then some (c - 48)
  else if 65 ≤ c ∧ c ≤ 70 then some (c - 55)
  else if 97 ≤ c ∧ c ≤ 102 then some (c - 87)
  else none

/-- Byte-level `decodeURIComponent`: `%XX` escapes are decoded, a malformed
escape throws a URIError (`none`). -/
def uriDecode : List Nat → Option (List Nat)
  | [] => some []
  | c :: rest =>
    if c = 37 then
      match rest with
      | h1 :: h2 :: rest' =>
        match hexVal h1, hexVal h2 with
        | some a, some b => (uriDecode rest').map (fun t => (16 * a + b) :: t)
        | _, _ => none
      | _ => none
    else (uriDecode rest).map (fun t => c :: t)

/-- JavaScript `String.prototype.toLowerCase` on one ASCII byte. -/
def lowerByte (b : Nat) : Nat := if 65 ≤ b ∧ b ≤ 90 then b + 32 else b

def lowerL (l : List Nat) : List Nat := l.map lowerByte

/-- The bytes of an ASCII string literal. -/
def strBytes (s : String) : List Nat := s.data.map Char.toNat

/-- The part of a path after its last `/` (byte 47); `path.extname` examines
only this final segment. -/
def lastSeg (l : List Nat) : List Nat :=
  (l.reverse.takeWhile (fun c => c != 47)).reverse

/-- Node `path.extname` on one path segment: the substring from the last `.`
(byte 46) on, empty when there is no dot or when the only dot is the leading
character of the segment (dotfiles have no extension). -/
def extCore (b : List Nat) : List Nat :=
  let v := b.reverse.takeWhile (fun c => c != 46)
  if v.length = b.length then []
  else if v.length + 1 = b.length then []
  else 46 :: v.reverse

def extname (l : List Nat) : List Nat := extCore (lastSeg l)

/-- The fixed extension allow-list `['.png', '.jpg', '.jpeg', '.gif', '.webp',
'.mp4', '.avi', '.mov']`. -/
def allowExts : List (List Nat) :=
  [strBytes ".png", strBytes ".jpg", strBytes ".jpeg", strBytes ".gif",
   strBytes ".webp", strBytes ".mp4", strBytes ".avi", strBytes ".mov"]

/-- The catalog filter: `['.png', …].includes(path.extname(p).toLowerCase())`. -/
def allowedB (p : List Nat) : Bool :=
  allowExts.contains (lowerL (extname p))

/-! ## Media items and the catalog builders -/

/-- A raw directory entry as the backends report it: name, size, and the
modification time (`none` when `new Date(mtime)` is invalid, i.e. the
`'Unknown Date'` sentinel applies). -/
structure FileEntry where
  name : List Nat
  size : Nat
  mtime : Option Int
deriving DecidableEq, Repr

/-- One catalog record.  `url`, `size` and `uploadDate` are the fields of the
JS object (`uploadDate = none` is the `'Unknown Date'` sentinel); `orig` is the
backend filename the record was built from — the spec's `originalPath` — kept
here to state the round-trip and filter invariants (it does not influence any
computation on items). -/
structure MediaItem where
  url : List Nat
  size : Nat
  uploadDate : Option Int
  orig : List Nat
deriving DecidableEq, Repr

def mediaPfx : List Nat := strBytes "/media/"
def localPfx : List Nat := strBytes "/local/"

/-- The WebDAV href prefix of the configured Nextcloud account (external
collaborator; a fixed account name stands in for the configured one). -/
def davPfx : List Nat := strBytes "/remote.php/dav/files/alice/"

/-- One loop iteration of the sftp / local listing: filter by
`path.extname(name).toLowerCase()` against the allow-list, and build
`{ url: prefix + encodeURIComponent(name), size, uploadDate }`. -/
def mkItem (pfx : List Nat) (f : FileEntry) : Option MediaItem :=
  if allowedB f.name then
    some { url := pfx ++ uriEncode f.name, size := f.size,
           uploadDate := f.mtime, orig := f.name }
  else none

/-- part_000 `listSFTPFiles`: its own try/catch returns `[]` when the listing
(or any stat inside the loop) throws. -/
def listSFTPFiles (r : Except Unit (List FileEntry)) : List MediaItem :=
  match r with
  | .error _ => []
  | .ok fs => fs.filterMap (mkItem mediaPfx)

/-- part_000 `listLocalFiles`: same shape over the local directory. -/
def listLocalFiles (r : Except Unit (List FileEntry)) : List MediaItem :=
  match r with
  | .error _ => []
  | .ok fs => fs.filterMap (mkItem localPfx)

/-- One entry of part_000 `listNextcloudFiles` (lines 136-172): the regex over
the PROPFIND XML yields `(href, size)` pairs; the href — formed by the WebDAV
server (external collaborator) as `davPfx ++ encodeURIComponent(name)` — is
used verbatim as `url`, the extension filter runs on the href, and
`uploadDate` is always the `'Unknown Date'` sentinel. -/
def ncItem (f : FileEntry) : Option MediaItem :=
  if allowedB (davPfx ++ uriEncode f.name) then
    some { url := davPfx ++ uriEncode f.name, size := f.size,
           uploadDate := none, orig := f.name }
  else none

def listNextcloudFiles (r : Except Unit (List FileEntry)) : List MediaItem :=
  match r with
  | .error _ => []
  | .ok fs => fs.filterMap ncItem

/-- The sort comparator of every variant:
`(a, b) => (a.uploadDate instanceof Date && b.uploadDate instanceof Date) ?
b.uploadDate - a.uploadDate : 0`. -/
def mediaCompare (a b : MediaItem) : Int :=
  match a.uploadDate, b.uploadDate with
  | some da, some db => db - da
  | _, _ => 0

/-! ## Array.prototype.sort

Node (V8) sorts with TimSort; for short arrays — fewer than 22 elements, which
covers every concrete evaluation in this file — the whole array is sorted by
one stable binary insertion pass: each element is inserted into the sorted
prefix at the position found by a binary search that moves right while the
comparator is ≥ 0.  `bsearchF` is that search (fuel-based to make the
recursion structural; any fuel ≥ hi - lo computes the fixpoint). -/

def bsearchF {α : Type} (cmp : α → α → Int) (pivot : α) (arr : List α) :
    Nat → Nat → Nat → Nat
  | 0, lo, _ => lo
  | fuel + 1, lo, hi =>
    if lo < hi then
      let mid := lo + (hi - lo) / 2
      if cmp pivot (arr.getD mid pivot) < 0 then bsearchF cmp pivot arr fuel lo mid
      else bsearchF cmp pivot arr fuel (mid + 1) hi
    else lo

def insertAt {α : Type} (n : Nat) (x : α) (l : List α) : List α :=
  l.take n ++ x :: l.drop n

def binaryInsert {α : Type} (cmp : α → α → Int) (x : α) (l : List α) : List α :=
  insertAt (bsearchF cmp x l l.length 0 l.length) x l

/-- The call `Array.prototype.sort(cmp)` as V8 executes it on short arrays. -/
def jsSort {α : Type} (cmp : α → α → Int) (l : List α) : List α :=
  l.foldl (fun acc x => binaryInsert cmp x acc) []

/-- app.js `listMedia` (lines 66-125): the sftp listing, the per-file stats,
and the local `readdirSync` all run inside one try/catch whose handler returns
`[]` — any backend failure empties the whole catalog. -/
def listMedia (sf lo : Except Unit (List FileEntry)) : List MediaItem :=
  match sf, lo with
  | .ok a, .ok b =>
    jsSort mediaCompare (a.filterMap (mkItem mediaPfx) ++ b.filterMap (mkItem localPfx))
  | _, _ => []

/-- part_000 `listAllMedia` (lines 175-183): each backend is listed by its own
function with its own try/catch, the three results are concatenated and
sorted. -/
def listAllMedia (sf lo nc : Except Unit (List FileEntry)) : List MediaItem :=
  jsSort mediaCompare (listSFTPFiles sf ++ listLocalFiles lo ++ listNextcloudFiles nc)

/-- Well-formedness of a backend listing: every reported filename is a
slash-free byte string (bytes < 256, no `/`), as real directory entries are. -/
def goodB (b : Nat) : Bool := decide (b < 256) && b != 47

def goodEntries : Except Unit (List FileEntry) → Bool
  | .error _ => true
  | .ok fs => fs.all (fun f => f.name.all goodB)

/-- Boolean form of the claimed sort property on one pair: when both items
carry dates, the later (or equal) date must come first. -/
def dateOrderedB (a b : MediaItem) : Bool :=
  match a.uploadDate, b.uploadDate with
  | some da, some db => db ≤ da
  | _, _ => true

end Gallery

/-! # Claims C1, C8, C9 -/

open Gallery

/-- C1: the spec says every mutating route is gated by the access policy, and
the file src/unnamed/part_002 (first variant) even documents `ipRestrict` as the
middleware "to check IP address for uploads and folder creation" — but its
`/upload` route (line 313) omits the gate.  Evaluating that route for a caller
whose address differs from the configured one: the request is answered 200 and
the uploaded file is stored, not 403 with no side effect. -/
theorem c1_upload_ungated_eval :
    uploadUngatedP2 (some ("203.0.113.9")) (some ("198.51.100.1"))
      (some ("clip.mp4")) ⟨[], []⟩ = (200, ⟨["clip.mp4"], []⟩) ∧
    ipAllowed (some ("203.0.113.9")) (some ("198.51.100.1")) = false ∧
    (200 ≠ 403) ∧
    (⟨["clip.mp4"], []⟩ : FsState) ≠ ⟨[], []⟩ := by
  refine ⟨rfl, rfl, by decide, by decide⟩

/-- C8 (amended): creating a folder that already exists locally leaves the
existing folder's contents unchanged in every variant, but only the variants
that pre-check with `fs.existsSync` (app.js) answer 400; part_001 calls
`fs.mkdir` directly and maps the `EEXIST` callback error to 500. -/
theorem c8_exists_behavior (fn : String) (st : FsState) (hne : fn ≠ "")
    (hex : pathJoin localMediaRoot fn ∈ dirNames st)
    (hex1 : pathJoin localVideoRoot fn ∈ dirNames st) :
    createFolderAppJs (some fn) st = (400, st) ∧
    createFolderP1 (some fn) st = (500, st) := by
  constructor
  · simp [createFolderAppJs, hne, hex]
  · simp [createFolderP1, mkdirCb, hne, hex1]

theorem c8_exists_behavior_witness :
    createFolderAppJs (some ("pics")) sampleFolderState = (400, sampleFolderState) ∧
    createFolderP1 (some ("pics")) sampleFolderState = (500, sampleFolderState) :=
  c8_exists_behavior "pics" sampleFolderState (by decide) (by decide) (by decide)

/-- C8 counterexample: with the folder `local_videos/pics` already present (and
holding a file), the part_001 create-folder route answers 500, not 400 — the
claim's `400` does not hold for that cited handler.  The state is unchanged. -/
theorem c8_counterexample :
    createFolderP1 (some ("pics"))
        ⟨[], [("local_videos/pics", ["a.png"])]⟩ =
      (500, ⟨[], [("local_videos/pics", ["a.png"])]⟩) ∧
    (500 ≠ 400) := by
  exact ⟨by decide, by decide⟩

/-- C9: the folder routes validate only non-emptiness — every non-empty
`folderName` goes straight to `fs.mkdir` / recursive `fs.rmdir` at exactly
`path.join(root, folderName)` — and for traversal inputs such as `../../etc`
that join normalises to a path outside the local media root. -/
theorem c9_join_escape :
    (∀ fn st, fn ≠ "" →
      createFolderP1 (some fn) st = mkdirCb (pathJoin localVideoRoot fn) st ∧
      deleteFolderP1 (some fn) st = rmdirRecCb (pathJoin localVideoRoot fn) st) ∧
    pathJoin localVideoRoot "../../etc" = "../etc" ∧
    underRoot "local_videos" (pathJoin localVideoRoot "../../etc") = false ∧
    underRoot "local_videos" (pathJoin localVideoRoot "photos") = true := by
  refine ⟨fun fn st h => ⟨by simp [createFolderP1, h], by simp [deleteFolderP1, h]⟩,
    by decide, by decide, by decide⟩

theorem c9_join_escape_witness :
    createFolderP1 (some ("../../etc")) ⟨[], []⟩ =
      mkdirCb (pathJoin localVideoRoot "../../etc") ⟨[], []⟩ ∧
    deleteFolderP1 (some ("../../etc")) ⟨[], []⟩ =
      rmdirRecCb (pathJoin localVideoRoot "../../etc") ⟨[], []⟩ :=
  (c9_join_escape.1 "../../etc" ⟨[], []⟩ (by decide))

/-! # Claims C3, C4, C10 (range requests) -/

theorem strPfx_append (p r : List Char) : strPfx p (p ++ r) = true := by
  induction p with
  | nil => rfl
  | cons c cs ih => simp [strPfx, ih]

theorem replFirst_self (p r : List Char) (hp : p ≠ []) :
    replFirst p (p ++ r) = r := by
  match p with
  | c :: p' =>
    show replFirst (c :: p') ((c :: p') ++ r) = r
    rw [List.cons_append, replFirst, if_pos]
    · show List.drop (p'.length + 1) (c :: (p' ++ r)) = r
      rw [List.drop_succ_cons, List.drop_left]
    · rw [← List.cons_append]; exact strPfx_append (c :: p') r

theorem splitOnChar_append_last (d : Char) (l : List Char) (h : d ∉ l) :
    splitOnChar d (l ++ [d]) = [l, []] := by
  induction l with
  | nil => simp [splitOnChar]
  | cons c cs ih =>
    have hc : c ≠ d := by intro hcd; exact h (hcd ▸ List.mem_cons_self c cs)
    have hcs : d ∉ cs := fun hm => h (List.mem_cons_of_mem c hm)
    simp [splitOnChar, ih hcs, hc]

theorem parseRange_open (sStr : List Char) (hd : ('-' : Char) ∉ sStr) :
    parseRange (("bytes=").data ++ sStr ++ ['-']) =
      (jsNumberL sStr, some (some 0)) := by
  unfold parseRange
  rw [List.append_assoc, replFirst_self _ _ (by decide),
    splitOnChar_append_last _ _ hd]
  rfl

theorem localStream_some (bytes : List Nat) (hdr : List Char) :
    localStream (some bytes) (some hdr) = rangedBranch bytes (parseRange hdr) := rfl

set_option maxRecDepth 100000 in
/-- C3 counterexample: the range `bytes=900-999` on a 500-byte file is answered
`206` with `Content-Range: bytes 900-999/500`, `Content-Length: 100` and an
empty body — the code never produces a 416 for an unsatisfiable range. -/
theorem c3_counterexample :
    localStream (some (List.replicate 500 0)) (some (("bytes=900-999").data)) =
      LocalOutcome.ranged 206 (("bytes 900-999/500").data) (some 100) [] ∧
    statusOf
        (localStream (some (List.replicate 500 0)) (some (("bytes=900-999").data))) ≠
      some 416 := by
  constructor
  · decide
  · decide

/-- C3 (amended): for a malformed or unsatisfiable `bytes=<start>-<end>` range
(start > end, or a bound at or beyond the file size) the route never answers
416: when start ≤ end it answers 206 with the unclamped requested range echoed
in `Content-Range` and `Content-Length (end - start) + 1`; when start > end,
`fs.createReadStream` throws before any header is written, so no response is
produced at all. -/
theorem c3_no416 (bytes : List Nat) (hdr : List Char) (s e : Int)
    (hp : parseRange hdr = (some s, some (some e)))
    (h0 : 0 ≤ s)
    (_hbad : e < s ∨ (bytes.length : Int) ≤ s ∨ (bytes.length : Int) ≤ e) :
    statusOf (localStream (some bytes) (some hdr)) ≠ some 416 ∧
    localStream (some bytes) (some hdr) =
      (if s ≤ e then
        LocalOutcome.ranged 206 (contentRangeStr (jsIntStr s) (jsIntStr e) bytes.length)
          (some (e - s + 1)) ((bytes.drop s.toNat).take (e - s + 1).toNat)
       else LocalOutcome.thrown) := by
  have hns : ¬ s < 0 := by omega
  have hstream : localStream (some bytes) (some hdr) =
      (if s ≤ e then
        LocalOutcome.ranged 206 (contentRangeStr (jsIntStr s) (jsIntStr e) bytes.length)
          (some (e - s + 1)) ((bytes.drop s.toNat).take (e - s + 1).toNat)
       else LocalOutcome.thrown) := by
    rw [localStream_some, hp]
    simp only [rangedBranch, chunkSize]
    rw [if_neg hns]
  refine ⟨?_, hstream⟩
  rw [hstream]
  by_cases hse : s ≤ e
  · rw [if_pos hse]; simp [statusOf]
  · rw [if_neg hse]; simp [statusOf]

set_option maxRecDepth 100000 in
theorem c3_no416_witness :
    statusOf
        (localStream (some (List.replicate 500 0)) (some (("bytes=900-999").data))) ≠
      some 416 :=
  (c3_no416 (List.replicate 500 0) (("bytes=900-999").data) 900 999
    (by decide) (by decide) (by decide)).1

/-- C4: a satisfiable two-bound range `bytes=<start>-<end>` with
`0 ≤ start ≤ end < size` is answered 206 with
`Content-Range: bytes <start>-<end>/<total>`, `Content-Length = end - start + 1`
and exactly that inclusive byte span of the file. -/
theorem c4_range_success (bytes : List Nat) (hdr : List Char) (s e : Int)
    (hp : parseRange hdr = (some s, some (some e)))
    (h0 : 0 ≤ s) (hse : s ≤ e) (hlt : e < (bytes.length : Int)) :
    localStream (some bytes) (some hdr) =
      LocalOutcome.ranged 206 (contentRangeStr (jsIntStr s) (jsIntStr e) bytes.length)
        (some (e - s + 1)) ((bytes.drop s.toNat).take (e - s + 1).toNat) ∧
    ((bytes.drop s.toNat).take (e - s + 1).toNat).length = (e - s + 1).toNat := by
  have hns : ¬ s < 0 := by omega
  constructor
  · rw [localStream_some, hp]
    simp only [rangedBranch, chunkSize]
    rw [if_neg hns, if_pos hse]
  · rw [List.length_take, List.length_drop]
    omega

theorem c4_range_success_witness :
    localStream (some (List.replicate 1000 7)) (some (("bytes=0-99").data)) =
      LocalOutcome.ranged 206
        (contentRangeStr (jsIntStr 0) (jsIntStr 99) (List.replicate 1000 7).length)
        (some (99 - 0 + 1))
        (((List.replicate 1000 7).drop ((0 : Int)).toNat).take ((99 - 0 + 1 : Int)).toNat) ∧
    (((List.replicate 1000 7).drop ((0 : Int)).toNat).take ((99 - 0 + 1 : Int)).toNat).length =
      ((99 - 0 + 1 : Int)).toNat :=
  c4_range_success (List.replicate 1000 7) (("bytes=0-99").data) 0 99
    (by decide) (by decide) (by decide)
    (by rw [List.length_replicate]; decide)

/-- C10 counterexample: for the open-ended range `bytes=5-` the end bound
parses as `0` (JavaScript `Number("")` is `0`), not NaN, and the route does not
answer 206 at all: `fs.createReadStream` throws `ERR_OUT_OF_RANGE`
(start 5 > end 0) before `writeHead`, so no response is produced. -/
theorem c10_counterexample :
    parseRange (("bytes=5-").data) = (some 5, some (some 0)) ∧
    (parseRange (("bytes=5-").data)).2 ≠ some none ∧
    localStream (some (List.replicate 10 1)) (some (("bytes=5-").data)) =
      LocalOutcome.thrown ∧
    statusOf (localStream (some (List.replicate 10 1)) (some (("bytes=5-").data))) ≠
      some 206 := by
  refine ⟨by decide, by decide, by decide, by decide⟩

/-- C10 (amended): for a request `bytes=<start>-` the handler parses the end
bound as `0` (JavaScript `Number("")` is `0`, not NaN); for `start = 0` it
answers 206 with `Content-Length 1`, serving only the first byte rather than
the remainder, and for every `start > 0` the synchronous
`fs.createReadStream` throw (start > end 0) means no response is sent — in no
case is the remainder of the file served from `start`, nor the request
rejected with an error status. -/
theorem c10_open_range (bytes : List Nat) (sStr : List Char) (s : Nat)
    (hdig : ∀ c ∈ sStr, 48 ≤ c.toNat ∧ c.toNat ≤ 57)
    (hval : jsNumberL sStr = some (s : Int)) :
    parseRange (("bytes=").data ++ sStr ++ ['-']) = (some (s : Int), some (some 0)) ∧
    localStream (some bytes) (some (("bytes=").data ++ sStr ++ ['-'])) =
      (if s = 0 then
        LocalOutcome.ranged 206 (contentRangeStr (jsIntStr 0) (jsIntStr 0) bytes.length)
          (some 1) (bytes.take 1)
       else LocalOutcome.thrown) := by
  have hd : ('-' : Char) ∉ sStr := by
    intro hm
    have h := hdig _ hm
    have h45 : ('-' : Char).toNat = 45 := rfl
    omega
  have hp : parseRange (("bytes=").data ++ sStr ++ ['-']) =
      (some (s : Int), some (some 0)) := by
    rw [parseRange_open sStr hd, hval]
  refine ⟨hp, ?_⟩
  have hns : ¬ (s : Int) < 0 := by omega
  rw [localStream_some, hp]
  simp only [rangedBranch, chunkSize]
  rw [if_neg hns]
  by_cases hz : s = 0
  · subst hz
    rw [if_pos (by omega), if_pos rfl]
    norm_num [jsIntStr]
  · rw [if_neg (by omega), if_neg hz]

theorem c10_open_range_witness :
    localStream (some (List.replicate 10 1))
        (some (("bytes=").data ++ (("5").data) ++ ['-'])) =
      LocalOutcome.thrown := by
  have h := (c10_open_range (List.replicate 10 1) (("5").data) 5
    (by decide) (by decide)).2
  simpa using h

/-! # Claim C2 (partial-failure isolation of the catalog build) -/

theorem insertAt_perm {α : Type} (n : Nat) (x : α) (l : List α) :
    List.Perm (insertAt n x l) (x :: l) := by
  have h1 : List.Perm (l.take n ++ x :: l.drop n) (x :: (l.take n ++ l.drop n)) :=
    List.perm_middle
  rw [List.take_append_drop] at h1
  exact h1

theorem binaryInsert_perm {α : Type} (cmp : α → α → Int) (x : α) (l : List α) :
    List.Perm (binaryInsert cmp x l) (x :: l) :=
  insertAt_perm _ x l

theorem foldl_binaryInsert_perm {α : Type} (cmp : α → α → Int)
    (l : List α) : ∀ acc : List α,
    List.Perm (l.foldl (fun a x => binaryInsert cmp x a) acc) (acc ++ l) := by
  induction l with
  | nil => intro acc; simp
  | cons x xs ih =>
    intro acc
    have h1 := ih (binaryInsert cmp x acc)
    have h2 : List.Perm (binaryInsert cmp x acc ++ xs) ((x :: acc) ++ xs) :=
      (binaryInsert_perm cmp x acc).append_right xs
    have h3 : List.Perm ((x :: acc) ++ xs) (acc ++ x :: xs) := by
      simpa using (@List.perm_middle _ x acc xs).symm
    simp only [List.foldl_cons]
    exact (h1.trans h2).trans h3

theorem jsSort_perm {α : Type} (cmp : α → α → Int) (l : List α) :
    List.Perm (jsSort cmp l) l := by
  have h := foldl_binaryInsert_perm cmp l []
  simpa [jsSort] using h

theorem mem_jsSort {α : Type} (cmp : α → α → Int) (l : List α) (x : α) :
    x ∈ jsSort cmp l ↔ x ∈ l :=
  (jsSort_perm cmp l).mem_iff

/-- C2 counterexample: app.js `listMedia` (also cited by the claim) wraps both
backends in one try/catch; with the sftp backend failing and the local backend
reachable and holding one eligible file, the whole build returns `[]` — the
reachable backend's item is not returned. -/
theorem c2_counterexample :
    listMedia (Except.error ()) (Except.ok [⟨strBytes "a.png", 3, some 5⟩]) = [] ∧
    listLocalFiles (Except.ok [⟨strBytes "a.png", 3, some 5⟩]) =
      [⟨localPfx ++ uriEncode (strBytes "a.png"), 3, some 5, strBytes "a.png"⟩] := by
  exact ⟨rfl, by decide⟩

/-- C2 (amended): in part_000's `listAllMedia` each backend is listed under its
own try/catch, so a failed backend contributes zero items and the result is
exactly (a permutation-free reordering of) the merged items of the reachable
backends — every remaining item is returned and the build never raises.  In
the monolithic `listMedia` of app.js a single backend failure instead empties
the whole catalog (see the counterexample). -/
theorem c2_backend_isolation (sf lo nc : Except Unit (List FileEntry)) :
    listSFTPFiles (Except.error ()) = [] ∧
    listLocalFiles (Except.error ()) = [] ∧
    listNextcloudFiles (Except.error ()) = [] ∧
    ∀ x, x ∈ listAllMedia sf lo nc ↔
      x ∈ listSFTPFiles sf ++ listLocalFiles lo ++ listNextcloudFiles nc := by
  refine ⟨rfl, rfl, rfl, fun x => ?_⟩
  unfold listAllMedia
  exact mem_jsSort _ _ x

theorem c2_backend_isolation_witness :
    (⟨localPfx ++ uriEncode (strBytes "a.png"), 3, some 5, strBytes "a.png"⟩ : MediaItem) ∈
        listAllMedia (Except.error ()) (Except.ok [⟨strBytes "a.png", 3, some 5⟩])
          (Except.error ()) ↔
      (⟨localPfx ++ uriEncode (strBytes "a.png"), 3, some 5, strBytes "a.png"⟩ : MediaItem) ∈
        listSFTPFiles (Except.error ()) ++
          listLocalFiles (Except.ok [⟨strBytes "a.png", 3, some 5⟩]) ++
          listNextcloudFiles (Except.error ()) :=
  (c2_backend_isolation (Except.error ()) (Except.ok [⟨strBytes "a.png", 3, some 5⟩])
    (Except.error ())).2.2.2 _

/-! # Claims C6, C7: encoding and extension lemmas -/

theorem uriEncode_append (a b : List Nat) :
    uriEncode (a ++ b) = uriEncode a ++ uriEncode b := by
  induction a with
  | nil => rfl
  | cons x xs ih => simp [uriEncode, ih]

theorem encByte_ne_nil (b : Nat) : encByte b ≠ [] := by
  unfold encByte; split <;> simp

theorem uriEncode_eq_nil_iff (l : List Nat) : uriEncode l = [] ↔ l = [] := by
  cases l with
  | nil => simp [uriEncode]
  | cons b bs =>
    simp only [uriEncode, List.append_eq_nil]
    exact ⟨fun ⟨h, _⟩ => absurd h (encByte_ne_nil b), fun h => by cases h⟩

theorem mem_encByte (c b : Nat) (h : c ∈ encByte b) :
    (uriUnreserved b = true ∧ c = b) ∨
    (uriUnreserved b = false ∧ (c = 37 ∨ ∃ n, c = hexDigit n)) := by
  unfold encByte at h
  by_cases hu : uriUnreserved b
  · rw [if_pos hu] at h
    simp at h
    exact Or.inl ⟨hu, h⟩
  · rw [if_neg hu] at h
    simp at h
    rcases h with h | h | h
    · exact Or.inr ⟨by simpa using hu, Or.inl h⟩
    · exact Or.inr ⟨by simpa using hu, Or.inr ⟨_, h⟩⟩
    · exact Or.inr ⟨by simpa using hu, Or.inr ⟨_, h⟩⟩

theorem hexDigit_ne (n : Nat) :
    hexDigit n ≠ 37 ∧ hexDigit n ≠ 46 ∧ hexDigit n ≠ 47 := by
  unfold hexDigit; split <;> omega

theorem mem_encByte_46 (b : Nat) (h : (46 : Nat) ∈ encByte b) : b = 46 := by
  rcases mem_encByte 46 b h with ⟨_, hc⟩ | ⟨_, hc | ⟨n, hn⟩⟩
  · omega
  · omega
  · exact absurd hn.symm (hexDigit_ne n).2.1

theorem not_mem_encByte_47 (b : Nat) : (47 : Nat) ∉ encByte b := by
  intro h
  rcases mem_encByte 47 b h with ⟨hu, hc⟩ | ⟨_, hc | ⟨n, hn⟩⟩
  · rw [← hc] at hu
    exact absurd hu (by decide)
  · omega
  · exact absurd hn.symm (hexDigit_ne n).2.2

theorem mem_uriEncode (c : Nat) (l : List Nat) :
    c ∈ uriEncode l ↔ ∃ b ∈ l, c ∈ encByte b := by
  induction l with
  | nil => simp [uriEncode]
  | cons x xs ih =>
    simp only [uriEncode, List.mem_append, ih, List.mem_cons]
    constructor
    · rintro (h | ⟨b, hb, hc⟩)
      · exact ⟨x, Or.inl rfl, h⟩
      · exact ⟨b, Or.inr hb, hc⟩
    · rintro ⟨b, hb | hb, hc⟩
      · exact Or.inl (hb ▸ hc)
      · exact Or.inr ⟨b, hb, hc⟩

theorem not_mem_47_uriEncode (l : List Nat) : (47 : Nat) ∉ uriEncode l := by
  rw [mem_uriEncode]
  rintro ⟨b, _, hb⟩
  exact not_mem_encByte_47 b hb

theorem mem_uriEncode_46 (l : List Nat) (h : (46 : Nat) ∈ uriEncode l) :
    (46 : Nat) ∈ l := by
  rcases (mem_uriEncode 46 l).mp h with ⟨b, hb, hc⟩
  exact (mem_encByte_46 b hc) ▸ hb

theorem takeWhile_append_all {α : Type} (p : α → Bool) (xs ys : List α)
    (h : ∀ x ∈ xs, p x = true) :
    (xs ++ ys).takeWhile p = xs ++ ys.takeWhile p := by
  induction xs with
  | nil => rfl
  | cons a as ih =>
    have ha : p a = true := h a (List.mem_cons_self a as)
    simp only [List.cons_append, List.takeWhile_cons, ha, if_true]
    rw [ih (fun x hx => h x (List.mem_cons_of_mem a hx))]

theorem takeWhile_all {α : Type} (p : α → Bool) (l : List α)
    (h : ∀ x ∈ l, p x = true) : l.takeWhile p = l := by
  induction l with
  | nil => rfl
  | cons a as ih =>
    have ha : p a = true := h a (List.mem_cons_self a as)
    simp only [List.takeWhile_cons, ha, if_true]
    rw [ih (fun x hx => h x (List.mem_cons_of_mem a hx))]

theorem lastSeg_append_no47 (a b : List Nat) (hb : ∀ c ∈ b, c ≠ 47) :
    lastSeg (a ++ b) = lastSeg a ++ b := by
  unfold lastSeg
  rw [List.reverse_append,
    takeWhile_append_all _ b.reverse a.reverse
      (fun x hx => by
        have := hb x (List.mem_reverse.mp hx)
        simpa using this),
    List.reverse_append, List.reverse_reverse]

theorem lastSeg_no47 (l : List Nat) (h : ∀ c ∈ l, c ≠ 47) : lastSeg l = l := by
  unfold lastSeg
  rw [takeWhile_all _ l.reverse
      (fun x hx => by
        have := h x (List.mem_reverse.mp hx)
        simpa using this),
    List.reverse_reverse]

theorem lastSeg_pfx47 (front : List Nat) (name : List Nat) :
    lastSeg ((front ++ [47]) ++ uriEncode name) = uriEncode name := by
  rw [lastSeg_append_no47 _ _
      (fun c hc he => not_mem_47_uriEncode name (he ▸ hc))]
  have h0 : lastSeg (front ++ [47]) = [] := by
    unfold lastSeg
    rw [List.reverse_append]
    rfl
  rw [h0]
  rfl

theorem hexVal_hexDigit : ∀ n, n < 16 → hexVal (hexDigit n) = some n := by decide

theorem uriDecode_uriEncode (l : List Nat) (h : ∀ b ∈ l, b < 256) :
    uriDecode (uriEncode l) = some l := by
  induction l with
  | nil => rfl
  | cons b bs ih =>
    have hb : b < 256 := h b (List.mem_cons_self b bs)
    have hbs : ∀ x ∈ bs, x < 256 := fun x hx => h x (List.mem_cons_of_mem b hx)
    show uriDecode (encByte b ++ uriEncode bs) = some (b :: bs)
    by_cases hu : uriUnreserved b
    · rw [encByte, if_pos hu]
      have hb37 : ¬ b = 37 := by
        intro he
        rw [he] at hu
        exact absurd hu (by decide)
      show uriDecode (b :: uriEncode bs) = some (b :: bs)
      rw [uriDecode.eq_def]
      simp [hb37, ih hbs]
    · rw [encByte, if_neg hu]
      show uriDecode (37 :: hexDigit (b / 16 % 16) :: hexDigit (b % 16) :: uriEncode bs) =
        some (b :: bs)
      have h1 := hexVal_hexDigit (b / 16 % 16) (by omega)
      have h2 := hexVal_hexDigit (b % 16) (by omega)
      rw [uriDecode.eq_def]
      simp [h1, h2, ih hbs]
      omega

theorem goodB_spec (b : Nat) (h : goodB b = true) : b < 256 ∧ b ≠ 47 := by
  unfold goodB at h
  simp at h
  exact ⟨h.1, h.2⟩

theorem mediaPfx_eq : mediaPfx = strBytes "/media" ++ [47] := by decide

theorem localPfx_eq : localPfx = strBytes "/local" ++ [47] := by decide

theorem davPfx_eq : davPfx = strBytes "/remote.php/dav/files/alice" ++ [47] := by
  decide

theorem mkItem_eq (pfx : List Nat) (f : FileEntry) (it : MediaItem)
    (h : mkItem pfx f = some it) :
    allowedB f.name = true ∧
    it = ⟨pfx ++ uriEncode f.name, f.size, f.mtime, f.name⟩ := by
  unfold mkItem at h
  by_cases ha : allowedB f.name
  · rw [if_pos ha] at h
    exact ⟨ha, (Option.some_inj.mp h).symm⟩
  · rw [if_neg ha] at h
    cases h

theorem ncItem_eq (f : FileEntry) (it : MediaItem)
    (h : ncItem f = some it) :
    allowedB (davPfx ++ uriEncode f.name) = true ∧
    it = ⟨davPfx ++ uriEncode f.name, f.size, none, f.name⟩ := by
  unfold ncItem at h
  by_cases ha : allowedB (davPfx ++ uriEncode f.name)
  · rw [if_pos ha] at h
    exact ⟨ha, (Option.some_inj.mp h).symm⟩
  · rw [if_neg ha] at h
    cases h

theorem mem_listAllMedia_cases (sf lo nc : Except Unit (List FileEntry))
    (it : MediaItem) (hit : it ∈ listAllMedia sf lo nc) :
    (∃ fs f, sf = Except.ok fs ∧ f ∈ fs ∧ mkItem mediaPfx f = some it) ∨
    (∃ fs f, lo = Except.ok fs ∧ f ∈ fs ∧ mkItem localPfx f = some it) ∨
    (∃ fs f, nc = Except.ok fs ∧ f ∈ fs ∧ ncItem f = some it) := by
  have hm : it ∈ listSFTPFiles sf ++ listLocalFiles lo ++ listNextcloudFiles nc :=
    (jsSort_perm mediaCompare _).mem_iff.mp (by simpa [listAllMedia] using hit)
  rcases List.mem_append.mp hm with hm12 | hm3
  · rcases List.mem_append.mp hm12 with hm1 | hm2
    · left
      cases sf with
      | error e => simp [listSFTPFiles] at hm1
      | ok fs =>
        simp only [listSFTPFiles] at hm1
        rcases List.mem_filterMap.mp hm1 with ⟨f, hf, hmk⟩
        exact ⟨fs, f, rfl, hf, hmk⟩
    · right; left
      cases lo with
      | error e => simp [listLocalFiles] at hm2
      | ok fs =>
        simp only [listLocalFiles] at hm2
        rcases List.mem_filterMap.mp hm2 with ⟨f, hf, hmk⟩
        exact ⟨fs, f, rfl, hf, hmk⟩
  · right; right
    cases nc with
    | error e => simp [listNextcloudFiles] at hm3
    | ok fs =>
      simp only [listNextcloudFiles] at hm3
      rcases List.mem_filterMap.mp hm3 with ⟨f, hf, hmk⟩
      exact ⟨fs, f, rfl, hf, hmk⟩

theorem goodEntries_name (r : Except Unit (List FileEntry)) (fs : List FileEntry)
    (f : FileEntry) (hr : r = Except.ok fs) (hg : goodEntries r = true)
    (hf : f ∈ fs) : ∀ b ∈ f.name, b < 256 ∧ b ≠ 47 := by
  subst hr
  simp only [goodEntries, List.all_eq_true] at hg
  intro b hb
  exact goodB_spec b (hg f hf b hb)

/-- C6: every catalog item's url, whichever backend produced it, has a
filename component that percent-decodes to exactly the backend filename the
item was built from (the spec's `originalPath`). -/
theorem c6_url_roundtrip (sf lo nc : Except Unit (List FileEntry))
    (hs : goodEntries sf = true) (hl : goodEntries lo = true)
    (hn : goodEntries nc = true) :
    ∀ it ∈ listAllMedia sf lo nc, uriDecode (lastSeg it.url) = some it.orig := by
  intro it hit
  rcases mem_listAllMedia_cases sf lo nc it hit with
    ⟨fs, f, he, hf, hmk⟩ | ⟨fs, f, he, hf, hmk⟩ | ⟨fs, f, he, hf, hmk⟩
  · obtain ⟨-, hit_eq⟩ := mkItem_eq _ _ _ hmk
    have hg := goodEntries_name sf fs f he hs hf
    rw [hit_eq]
    show uriDecode (lastSeg (mediaPfx ++ uriEncode f.name)) = some f.name
    rw [mediaPfx_eq, lastSeg_pfx47]
    exact uriDecode_uriEncode _ (fun b hb => (hg b hb).1)
  · obtain ⟨-, hit_eq⟩ := mkItem_eq _ _ _ hmk
    have hg := goodEntries_name lo fs f he hl hf
    rw [hit_eq]
    show uriDecode (lastSeg (localPfx ++ uriEncode f.name)) = some f.name
    rw [localPfx_eq, lastSeg_pfx47]
    exact uriDecode_uriEncode _ (fun b hb => (hg b hb).1)
  · obtain ⟨-, hit_eq⟩ := ncItem_eq _ _ hmk
    have hg := goodEntries_name nc fs f he hn hf
    rw [hit_eq]
    show uriDecode (lastSeg (davPfx ++ uriEncode f.name)) = some f.name
    rw [davPfx_eq, lastSeg_pfx47]
    exact uriDecode_uriEncode _ (fun b hb => (hg b hb).1)

theorem c6_url_roundtrip_witness :
    uriDecode (lastSeg (⟨mediaPfx ++ uriEncode (strBytes "a b.png"), 3, some 5,
        strBytes "a b.png"⟩ : MediaItem).url) =
      some ((⟨mediaPfx ++ uriEncode (strBytes "a b.png"), 3, some 5,
        strBytes "a b.png"⟩ : MediaItem).orig) :=
  c6_url_roundtrip (Except.ok [⟨strBytes "a b.png", 3, some 5⟩]) (Except.error ())
    (Except.error ()) (by decide) (by decide) (by decide) _ (by decide)

/-! ## Extension-filter lemmas for claim C7 -/

theorem split_last (d : Nat) (l : List Nat) (h : d ∈ l) :
    ∃ u v, l = u ++ d :: v ∧ d ∉ v := by
  induction l with
  | nil => cases h
  | cons c cs ih =>
    by_cases hc : d ∈ cs
    · rcases ih hc with ⟨u, v, heq, hnv⟩
      exact ⟨c :: u, v, by rw [heq]; rfl, hnv⟩
    · have hd : d = c := by
        rcases List.mem_cons.mp h with h1 | h1
        · exact h1
        · exact absurd h1 hc
      exact ⟨[], cs, by rw [hd]; rfl, hc⟩

theorem extCore_no_dot (b : List Nat) (h : (46 : Nat) ∉ b) : extCore b = [] := by
  simp only [extCore]
  rw [takeWhile_all _ b.reverse (fun x hx => by
    have : x ≠ 46 := fun he => h (he ▸ List.mem_reverse.mp hx)
    simpa using this)]
  rw [if_pos (List.length_reverse b)]

theorem extCore_append_dot (p w : List Nat) (hw : (46 : Nat) ∉ w) :
    extCore (p ++ 46 :: w) = if p = [] then [] else 46 :: w := by
  simp only [extCore]
  have hrev : (p ++ 46 :: w).reverse = w.reverse ++ 46 :: p.reverse := by
    rw [List.reverse_append, List.reverse_cons, List.append_assoc]
    rfl
  rw [hrev]
  rw [takeWhile_append_all _ w.reverse (46 :: p.reverse) (fun x hx => by
    have : x ≠ 46 := fun he => hw (he ▸ List.mem_reverse.mp hx)
    simpa using this)]
  have ht : (46 :: p.reverse).takeWhile (fun c => c != 46) = [] := by
    simp [List.takeWhile_cons]
  rw [ht, List.append_nil]
  simp only [List.length_reverse, List.length_append, List.length_cons,
    List.reverse_reverse]
  by_cases hp : p = []
  · subst hp
    rw [if_neg (by simp), if_pos (by simp), if_pos rfl]
  · have hlen : 0 < p.length := List.length_pos.mpr hp
    rw [if_neg (by omega), if_neg (by omega), if_neg hp]

theorem lowerByte_eq_37 (b : Nat) (h : lowerByte b = 37) : b = 37 := by
  unfold lowerByte at h
  split at h <;> omega

theorem mem37_allowExts : ∀ a ∈ allowExts, (37 : Nat) ∉ a := by decide

theorem nil_not_allowExts : ([] : List Nat) ∉ allowExts := by decide

theorem enc_unreserved_id (v : List Nat) (h : ∀ b ∈ v, uriUnreserved b = true) :
    uriEncode v = v := by
  induction v with
  | nil => rfl
  | cons x xs ih =>
    show encByte x ++ uriEncode xs = x :: xs
    rw [encByte, if_pos (h x (List.mem_cons_self x xs)),
      ih (fun b hb => h b (List.mem_cons_of_mem x hb))]
    rfl

theorem mem37_uriEncode (v : List Nat) (b : Nat) (hb : b ∈ v)
    (hu : uriUnreserved b = false) : (37 : Nat) ∈ uriEncode v := by
  apply (mem_uriEncode 37 v).mpr
  refine ⟨b, hb, ?_⟩
  rw [encByte, if_neg (by simp [hu])]
  exact List.mem_cons_self _ _

/-- The heart of C7 for the Nextcloud leg: if the percent-encoded href has an
allow-listed extension, so does the underlying filename. -/
theorem allowed_href_name (name : List Nat) (hg : ∀ b ∈ name, b < 256 ∧ b ≠ 47)
    (h : allowedB (davPfx ++ uriEncode name) = true) : allowedB name = true := by
  have hext : extname (davPfx ++ uriEncode name) = extCore (uriEncode name) := by
    unfold extname
    rw [davPfx_eq, lastSeg_pfx47]
  unfold allowedB at h ⊢
  rw [hext] at h
  have hextn : extname name = extCore name := by
    unfold extname
    rw [lastSeg_no47 name (fun c hc => (hg c hc).2)]
  rw [hextn]
  have hmem : lowerL (extCore (uriEncode name)) ∈ allowExts := by
    simpa [List.contains] using h
  have hne : extCore (uriEncode name) ≠ [] := by
    intro he
    rw [he] at hmem
    exact nil_not_allowExts (by simpa [lowerL] using hmem)
  have h46e : (46 : Nat) ∈ uriEncode name := by
    by_contra hno
    exact hne (extCore_no_dot _ hno)
  have h46 : (46 : Nat) ∈ name := mem_uriEncode_46 _ h46e
  rcases split_last 46 name h46 with ⟨u, v, heq, hnv⟩
  have hencu : uriEncode name = uriEncode u ++ 46 :: uriEncode v := by
    rw [heq, uriEncode_append]
    show uriEncode u ++ uriEncode (46 :: v) = _
    rw [show uriEncode (46 :: v) = encByte 46 ++ uriEncode v from rfl,
      show encByte 46 = [46] from by decide]
    rfl
  have hnv' : (46 : Nat) ∉ uriEncode v := fun hm => hnv (mem_uriEncode_46 _ hm)
  have hu : u ≠ [] := by
    intro he
    subst he
    apply hne
    rw [hencu]
    show extCore ([] ++ 46 :: uriEncode v) = []
    rw [extCore_append_dot [] _ hnv', if_pos rfl]
  have hencu_ne : uriEncode u ≠ [] := fun he => hu ((uriEncode_eq_nil_iff u).mp he)
  have hext2 : extCore (uriEncode name) = 46 :: uriEncode v := by
    rw [hencu, extCore_append_dot _ _ hnv', if_neg hencu_ne]
  rw [hext2] at hmem
  have hlow : lowerL (46 :: uriEncode v) = 46 :: lowerL (uriEncode v) := rfl
  rw [hlow] at hmem
  have h37 : (37 : Nat) ∉ uriEncode v := by
    intro hm
    have h37m : (37 : Nat) ∈ 46 :: lowerL (uriEncode v) :=
      List.mem_cons_of_mem _ (by
        have := List.mem_map_of_mem lowerByte hm
        simpa [lowerL] using this)
    exact mem37_allowExts _ hmem h37m
  have hvu : ∀ b ∈ v, uriUnreserved b = true := by
    intro b hb
    by_contra hbu
    exact h37 (mem37_uriEncode v b hb (by simpa using hbu))
  have hvenc : uriEncode v = v := enc_unreserved_id v hvu
  have hextname : extCore name = 46 :: v := by
    rw [heq, extCore_append_dot _ _ hnv, if_neg hu]
  rw [hextname]
  rw [hext2, hvenc] at h
  exact h

/-- C7: a file whose extension (compared case-insensitively) is outside the
allow-list is never represented in the catalog, for every backend: each item
of the catalog has an allow-listed source filename. -/
theorem c7_extension_allowlist (sf lo nc : Except Unit (List FileEntry))
    (_hs : goodEntries sf = true) (_hl : goodEntries lo = true)
    (hn : goodEntries nc = true) :
    ∀ it ∈ listAllMedia sf lo nc, allowedB it.orig = true := by
  intro it hit
  rcases mem_listAllMedia_cases sf lo nc it hit with
    ⟨fs, f, he, hf, hmk⟩ | ⟨fs, f, he, hf, hmk⟩ | ⟨fs, f, he, hf, hmk⟩
  · obtain ⟨ha, hit_eq⟩ := mkItem_eq _ _ _ hmk
    rw [hit_eq]
    exact ha
  · obtain ⟨ha, hit_eq⟩ := mkItem_eq _ _ _ hmk
    rw [hit_eq]
    exact ha
  · obtain ⟨ha, hit_eq⟩ := ncItem_eq _ _ hmk
    rw [hit_eq]
    exact allowed_href_name f.name (goodEntries_name nc fs f he hn hf) ha

theorem c7_extension_allowlist_witness :
    allowedB (⟨davPfx ++ uriEncode (strBytes "b.jpg"), 4, none,
        strBytes "b.jpg"⟩ : MediaItem).orig = true :=
  c7_extension_allowlist (Except.error ()) (Except.error ())
    (Except.ok [⟨strBytes "b.jpg", 4, none⟩])
    (by decide) (by decide) (by decide) _ (by decide)

/-! # Claim C5 (catalog sort order)

Correctness of the binary insertion sort under a comparator that is a key
comparator on the elements actually present — which is the situation of the
amended claim, where every item carries a valid date. -/

theorem getD_mem {α : Type} (l : List α) (i : Nat) (d : α) (h : i < l.length) :
    l.getD i d ∈ l := by
  rw [List.getD_eq_getElem l d h]
  exact List.getElem_mem h

theorem pairwise_getD {α : Type} {R : α → α → Prop} (l : List α)
    (hp : List.Pairwise R l) :
    ∀ i j d, i < j → j < l.length → R (l.getD i d) (l.getD j d) := by
  induction hp with
  | nil =>
    intro i j d hij hj
    simp at hj
  | @cons a l' ha hp' ih =>
    intro i j d hij hj
    cases i with
    | zero =>
      cases j with
      | zero => omega
      | succ j' =>
        rw [List.getD_cons_zero, List.getD_cons_succ]
        have hlen : j' < l'.length := by simpa using hj
        exact ha _ (getD_mem l' j' d hlen)
    | succ i' =>
      cases j with
      | zero => omega
      | succ j' =>
        rw [List.getD_cons_succ, List.getD_cons_succ]
        exact ih i' j' d (by omega) (by simpa using hj)

theorem mem_take_getD {α : Type} (l : List α) (n : Nat) (x d : α)
    (h : x ∈ l.take n) : ∃ i, i < n ∧ i < l.length ∧ l.getD i d = x := by
  induction l generalizing n with
  | nil => simp at h
  | cons a as ih =>
    cases n with
    | zero => simp at h
    | succ n' =>
      rw [List.take_succ_cons] at h
      rcases List.mem_cons.mp h with h1 | h1
      · exact ⟨0, by omega, by simp, by rw [List.getD_cons_zero, h1]⟩
      · rcases ih n' h1 with ⟨i, h2, h3, h4⟩
        exact ⟨i + 1, by omega, by simpa using h3, by rw [List.getD_cons_succ]; exact h4⟩

theorem mem_drop_getD {α : Type} (l : List α) (n : Nat) (x d : α)
    (h : x ∈ l.drop n) : ∃ i, n ≤ i ∧ i < l.length ∧ l.getD i d = x := by
  induction l generalizing n with
  | nil => simp at h
  | cons a as ih =>
    cases n with
    | zero =>
      rw [List.drop_zero] at h
      rcases List.mem_cons.mp h with h1 | h1
      · exact ⟨0, Nat.zero_le 0, by simp, by rw [List.getD_cons_zero, h1]⟩
      · rcases ih 0 (by simpa using h1) with ⟨i, _, h3, h4⟩
        exact ⟨i + 1, Nat.zero_le _, by simpa using h3,
          by rw [List.getD_cons_succ]; exact h4⟩
    | succ n' =>
      rw [List.drop_succ_cons] at h
      rcases ih n' h with ⟨i, h2, h3, h4⟩
      exact ⟨i + 1, by omega, by simpa using h3, by rw [List.getD_cons_succ]; exact h4⟩

theorem bsearchF_inv {α : Type} (cmp : α → α → Int) (P : α → Prop) (k : α → Int)
    (hcmp : ∀ a b, P a → P b → cmp a b = k b - k a)
    (pivot : α) (hpiv : P pivot) (acc : List α)
    (hP : ∀ x ∈ acc, P x)
    (hsort : ∀ i j, i < j → j < acc.length →
      k (acc.getD j pivot) ≤ k (acc.getD i pivot)) :
    ∀ (fuel lo hi : Nat), hi - lo ≤ fuel → lo ≤ hi → hi ≤ acc.length →
      (∀ i, i < lo → k pivot ≤ k (acc.getD i pivot)) →
      (∀ i, hi ≤ i → i < acc.length → k (acc.getD i pivot) ≤ k pivot) →
      lo ≤ bsearchF cmp pivot acc fuel lo hi ∧
      bsearchF cmp pivot acc fuel lo hi ≤ hi ∧
      (∀ i, i < bsearchF cmp pivot acc fuel lo hi →
        k pivot ≤ k (acc.getD i pivot)) ∧
      (∀ i, bsearchF cmp pivot acc fuel lo hi ≤ i → i < acc.length →
        k (acc.getD i pivot) ≤ k pivot) := by
  intro fuel
  induction fuel with
  | zero =>
    intro lo hi hf hlh hha h4 h5
    have heq : lo = hi := by omega
    subst heq
    simp only [bsearchF]
    exact ⟨le_refl lo, le_refl lo, h4, fun i hi1 hi2 => h5 i hi1 hi2⟩
  | succ n ih =>
    intro lo hi hf hlh hha h4 h5
    simp only [bsearchF]
    by_cases hlt : lo < hi
    · rw [if_pos hlt]
      set mid := lo + (hi - lo) / 2 with hmid
      have hmlt : mid < hi := by omega
      have hmlen : mid < acc.length := by omega
      have hPm : P (acc.getD mid pivot) := hP _ (getD_mem acc mid pivot hmlen)
      by_cases hc : cmp pivot (acc.getD mid pivot) < 0
      · rw [if_pos hc]
        have hkm : k (acc.getD mid pivot) < k pivot := by
          have h := hcmp pivot (acc.getD mid pivot) hpiv hPm
          omega
        have h5' : ∀ i, mid ≤ i → i < acc.length →
            k (acc.getD i pivot) ≤ k pivot := by
          intro i him hilen
          by_cases he : i = mid
          · rw [he]; exact le_of_lt hkm
          · exact le_trans (hsort mid i (by omega) hilen) (le_of_lt hkm)
        obtain ⟨g1, g2, g3, g4⟩ := ih lo mid (by omega) (by omega) (by omega) h4 h5'
        exact ⟨g1, le_trans g2 (le_of_lt hmlt), g3, g4⟩
      · rw [if_neg hc]
        have hkm : k pivot ≤ k (acc.getD mid pivot) := by
          have h := hcmp pivot (acc.getD mid pivot) hpiv hPm
          omega
        have h4' : ∀ i, i < mid + 1 → k pivot ≤ k (acc.getD i pivot) := by
          intro i hi1
          by_cases he : i = mid
          · rw [he]; exact hkm
          · exact le_trans hkm (hsort i mid (by omega) hmlen)
        obtain ⟨g1, g2, g3, g4⟩ := ih (mid + 1) hi (by omega) (by omega) hha h4' h5
        exact ⟨by omega, g2, g3, g4⟩
    · rw [if_neg hlt]
      exact ⟨le_refl lo, by omega, h4, fun i hi1 hi2 => h5 i (by omega) hi2⟩

theorem binaryInsert_pairwise {α : Type} (cmp : α → α → Int) (P : α → Prop)
    (k : α → Int) (hcmp : ∀ a b, P a → P b → cmp a b = k b - k a)
    (pivot : α) (hpiv : P pivot) (acc : List α)
    (hP : ∀ x ∈ acc, P x)
    (hpw : List.Pairwise (fun a b => k b ≤ k a) acc) :
    List.Pairwise (fun a b => k b ≤ k a) (binaryInsert cmp pivot acc) := by
  have hsort : ∀ i j, i < j → j < acc.length →
      k (acc.getD j pivot) ≤ k (acc.getD i pivot) :=
    fun i j hij hj => pairwise_getD acc hpw i j pivot hij hj
  obtain ⟨hb1, hb2, hb3, hb4⟩ := bsearchF_inv cmp P k hcmp pivot hpiv acc hP hsort
    acc.length 0 acc.length (by omega) (by omega) (le_refl _)
    (fun i h => absurd h (Nat.not_lt_zero i))
    (fun i h1 h2 => absurd h1 (by omega))
  show List.Pairwise _ (insertAt (bsearchF cmp pivot acc acc.length 0 acc.length) pivot acc)
  set p := bsearchF cmp pivot acc acc.length 0 acc.length with hpdef
  unfold insertAt
  have hacc : acc = acc.take p ++ acc.drop p := (List.take_append_drop p acc).symm
  have hcross := List.pairwise_append.mp (hacc ▸ hpw)
  rw [List.pairwise_append]
  refine ⟨hcross.1, ?_, ?_⟩
  · rw [List.pairwise_cons]
    refine ⟨?_, hcross.2.1⟩
    intro y hy
    rcases mem_drop_getD acc p y pivot hy with ⟨i, hi1, hi2, hi3⟩
    rw [← hi3]
    exact hb4 i hi1 hi2
  · intro x hx b hb
    rcases List.mem_cons.mp hb with hb1 | hb1
    · rcases mem_take_getD acc p x pivot hx with ⟨i, hi1, hi2, hi3⟩
      rw [hb1, ← hi3]
      exact hb3 i hi1
    · exact hcross.2.2 x hx b hb1

theorem jsSort_pairwise {α : Type} (cmp : α → α → Int) (P : α → Prop) (k : α → Int)
    (hcmp : ∀ a b, P a → P b → cmp a b = k b - k a)
    (l : List α) (hl : ∀ x ∈ l, P x) :
    List.Pairwise (fun a b => k b ≤ k a) (jsSort cmp l) := by
  suffices h : ∀ (acc : List α), (∀ x ∈ acc, P x) →
      List.Pairwise (fun a b => k b ≤ k a) acc →
      (∀ x ∈ l, P x) →
      List.Pairwise (fun a b => k b ≤ k a)
        (l.foldl (fun a x => binaryInsert cmp x a) acc) by
    exact h [] (by simp) (by simp) hl
  clear hl
  induction l with
  | nil =>
    intro acc h1 h2 h3
    simpa using h2
  | cons x xs ih =>
    intro acc h1 h2 h3
    simp only [List.foldl_cons]
    apply ih
    · intro y hy
      have hmem := (binaryInsert_perm cmp x acc).mem_iff.mp hy
      rcases List.mem_cons.mp hmem with h | h
      · rw [h]; exact h3 x (List.mem_cons_self x xs)
      · exact h1 y h
    · exact binaryInsert_pairwise cmp P k hcmp x (h3 x (List.mem_cons_self x xs)) acc h1 h2
    · intro y hy
      exact h3 y (List.mem_cons_of_mem x hy)

/-- C5 counterexample: with two unknown-dated items interleaved between an
item dated 1 and an item dated 9, the engine's binary insertion sort leaves the
list unchanged — the earlier-dated item stays before the later-dated one,
because the binary search for the dated pivot only ever compares it against the
unknown-dated items (comparator 0). -/
theorem c5_counterexample :
    jsSort mediaCompare
        [⟨strBytes "e.png", 1, some 1, strBytes "e.png"⟩,
         ⟨strBytes "u1.png", 1, none, strBytes "u1.png"⟩,
         ⟨strBytes "u2.png", 1, none, strBytes "u2.png"⟩,
         ⟨strBytes "l.png", 1, some 9, strBytes "l.png"⟩] =
      [⟨strBytes "e.png", 1, some 1, strBytes "e.png"⟩,
       ⟨strBytes "u1.png", 1, none, strBytes "u1.png"⟩,
       ⟨strBytes "u2.png", 1, none, strBytes "u2.png"⟩,
       ⟨strBytes "l.png", 1, some 9, strBytes "l.png"⟩] ∧
    ¬ List.Pairwise (fun a b => dateOrderedB a b = true)
        (jsSort mediaCompare
          [⟨strBytes "e.png", 1, some 1, strBytes "e.png"⟩,
           ⟨strBytes "u1.png", 1, none, strBytes "u1.png"⟩,
           ⟨strBytes "u2.png", 1, none, strBytes "u2.png"⟩,
           ⟨strBytes "l.png", 1, some 9, strBytes "l.png"⟩]) := by
  constructor
  · decide
  · decide

/-- C5 (amended): when every item of the merged input carries a valid date,
the sorted catalog is date-descending: for any two items, the one appearing
earlier never has the smaller date.  With unknown-sentinel items interleaved
the property can fail (see the counterexample). -/
theorem c5_sorted_when_all_dated (l : List MediaItem)
    (hdated : ∀ x ∈ l, x.uploadDate.isSome = true) :
    List.Pairwise (fun a b => dateOrderedB a b = true) (jsSort mediaCompare l) := by
  have hcmp : ∀ a b : MediaItem, a.uploadDate.isSome = true →
      b.uploadDate.isSome = true →
      mediaCompare a b = (b.uploadDate.getD 0) - (a.uploadDate.getD 0) := by
    intro a b ha hb
    rcases Option.isSome_iff_exists.mp ha with ⟨da, hda⟩
    rcases Option.isSome_iff_exists.mp hb with ⟨db, hdb⟩
    simp [mediaCompare, hda, hdb]
  have hk := jsSort_pairwise mediaCompare (fun x => x.uploadDate.isSome = true)
    (fun x => x.uploadDate.getD 0) hcmp l hdated
  apply hk.imp
  intro a b h
  unfold dateOrderedB
  cases ha : a.uploadDate with
  | none => rfl
  | some da =>
    cases hb : b.uploadDate with
    | none => rfl
    | some db =>
      simp only [ha, hb, Option.getD_some] at h
      exact decide_eq_true h

theorem c5_sorted_when_all_dated_witness :
    List.Pairwise (fun a b => dateOrderedB a b = true)
      (jsSort mediaCompare
        [⟨strBytes "x.png", 1, some 3, strBytes "x.png"⟩,
         ⟨strBytes "y.png", 2, some 8, strBytes "y.png"⟩]) :=
  c5_sorted_when_all_dated _ (by decide)
